import Mathlib

/-!
Verification development for the openclaw-enforce repository.

The repository ships documentation and JavaScript example clients; the Rust
enforcement core (pattern matcher, decision engine, capability registry,
rate tracker, audit log) is described by the specification and the
architecture documents but its source is not part of the tree.  Those
components are therefore modelled from the specification, while the
JavaScript example clients (examples/index.js, examples/standalone-api.js)
are embedded directly from their source.

Paths are modelled as lists of characters; machine-level concerns
(filesystem state, symlinks, wall-clock time, cryptographic hashing) are
abstracted as noted on each definition.
-/

namespace OpenClawEnforce

/-- Modelled from the spec: a canonical filesystem path, represented as the
list of characters of its textual form. -/
abbrev CanonPath := List Char

/-- Modelled from the spec: `p` begins with the entry `e` (character-wise
textual comparison, used by the prefix allow matcher). -/
def listStartsWith : List Char → List Char → Bool
  | _, [] => true
  | [], _ :: _ => false
  | c :: cs, d :: ds => c == d && listStartsWith cs ds

/-- Modelled from the spec: one shell-style glob pattern token — a literal
character, `?`, `*`, or a (possibly negated) character class. -/
inductive GlobToken where
  | lit (c : Char)
  | anyChar
  | anySeq
  | classOf (neg : Bool) (cs : List Char)
deriving DecidableEq, Repr

/-- Modelled from the spec: fuel-indexed shell-style glob evaluation.  `*`
matches any character sequence (the spec evaluates globs against the full
canonical path and its scenario has `*.key` match
`/tmp/test-allowed/secret.key`, so `*` crosses separators), `?` matches one
character, character classes match one character from (or outside) a set. -/
def globMatchFuel : Nat → List GlobToken → List Char → Bool
  | 0, _, _ => false
  | _ + 1, [], ds => ds.isEmpty
  | fuel + 1, .lit c :: ps, ds =>
    match ds with
    | [] => false
    | d :: ds2 => c == d && globMatchFuel fuel ps ds2
  | fuel + 1, .anyChar :: ps, ds =>
    match ds with
    | [] => false
    | _ :: ds2 => globMatchFuel fuel ps ds2
  | fuel + 1, .classOf neg cs :: ps, ds =>
    match ds with
    | [] => false
    | d :: ds2 => (neg != cs.contains d) && globMatchFuel fuel ps ds2
  | fuel + 1, .anySeq :: ps, ds =>
    globMatchFuel fuel ps ds ||
      (match ds with
       | [] => false
       | _ :: ds2 => globMatchFuel fuel (.anySeq :: ps) ds2)

/-- Modelled from the spec: glob evaluation of one deny pattern against the
full canonical path (`matches_deny` on a single pattern).  The fuel
`pat.length + path.length + 1` strictly dominates the recursion depth. -/
def globMatch (pat : List GlobToken) (path : List Char) : Bool :=
  globMatchFuel (pat.length + path.length + 1) pat path

/-- Modelled from the spec: `matches_deny(path, glob_list)` — some deny glob
matches the canonical path. -/
def matchesDeny (path : CanonPath) (globs : List (List GlobToken)) : Bool :=
  globs.any fun g => globMatch g path

/-- Modelled from the spec: a path `p` is allowed by a single allow-list
entry `e` iff `p` equals `e` or `p` begins with `e` followed by a path
separator. -/
def allowEntryMatches (p e : CanonPath) : Bool :=
  p == e || listStartsWith p (e ++ ['/'])

/-- Modelled from the spec: `matches_prefix(path, allow_list)` — some
allow-list entry allows the canonical path. -/
def matchesAllow (p : CanonPath) (allowList : List CanonPath) : Bool :=
  allowList.any fun e => allowEntryMatches p e

/-- Modelled from the spec: split a raw path at `/` separators into
segments (the separators are dropped). -/
def splitPath : List Char → List (List Char)
  | [] => [[]]
  | c :: cs =>
    if c = '/' then [] :: splitPath cs
    else
      match splitPath cs with
      | [] => [[c]]
      | s :: rest => (c :: s) :: rest

/-- Modelled from the spec: normalize a segment list — drop empty segments
(repeated or leading separators) and `.`, and resolve `..` against the
segment stack.  Symlink resolution needs filesystem state and is outside
this model; the paths in the claims are symlink-free. -/
def normSegs (segs : List (List Char)) : List (List Char) :=
  segs.foldl
    (fun acc seg =>
      if seg = [] ∨ seg = ['.'] then acc
      else if seg = ['.', '.'] then acc.dropLast
      else acc ++ [seg])
    []

/-- Modelled from the spec: rebuild an absolute path from its segments. -/
def joinSegs (segs : List (List Char)) : List Char :=
  segs.foldl (fun acc s => acc ++ '/' :: s) []

/-- Modelled from the spec: `resolve(raw_path)` for absolute symlink-free
paths — expand `.` and `..` segments and collapse separators, yielding the
canonical form used for all matching. -/
def resolve (raw : List Char) : CanonPath :=
  joinSegs (normSegs (splitPath raw))

/-- Modelled from the spec: a `Decision` — allow flag, human reason, and the
ordered list of violation codes. -/
structure Decision where
  allowed : Bool
  reason : String
  violations : List String
deriving DecidableEq, Repr

/-- Modelled from the spec: the filesystem section of the immutable policy
snapshot — ordered allow-prefixes and deny glob patterns. -/
structure FsPolicy where
  allowedRead : List CanonPath
  deniedPatterns : List (List GlobToken)

/-- Modelled from the spec: `decide(ReadFile{path})` — canonicalize, check
deny globs first (short-circuiting to DENY with `deny_pattern_matched`),
then require an allow-prefix match for ALLOW, defaulting to DENY with
`path_not_allowed`. -/
def decideRead (pol : FsPolicy) (raw : List Char) : Decision :=
  if matchesDeny (resolve raw) pol.deniedPatterns then
    { allowed := false
      reason := "Denied by pattern"
      violations := ["deny_pattern_matched"] }
  else if matchesAllow (resolve raw) pol.allowedRead then
    { allowed := true
      reason := "Path in allowed read list"
      violations := [] }
  else
    { allowed := false
      reason := "Path not in allowed read list"
      violations := ["path_not_allowed"] }

/-- Modelled from the spec: the glob pattern `*.key`. -/
def keyGlob : List GlobToken :=
  [.anySeq, .lit '.', .lit 'k', .lit 'e', .lit 'y']

/-- Modelled from the spec: the scenario policy — allow-prefix
`/tmp/test-allowed`, deny-glob `*.key`. -/
def scenarioPolicy : FsPolicy :=
  { allowedRead := ["/tmp/test-allowed".data]
    deniedPatterns := [keyGlob] }

/-- C1: with allow-prefix `/tmp/test-allowed` and deny-glob `*.key`, the
decision engine allows `/tmp/test-allowed/demo.txt`, denies
`/tmp/test-allowed/secret.key` with violation code `deny_pattern_matched`,
and denies `/etc/passwd` with violation code `path_not_allowed`. -/
theorem c1_read_scenario :
    (decideRead scenarioPolicy "/tmp/test-allowed/demo.txt".data).allowed = true
    ∧ (decideRead scenarioPolicy "/tmp/test-allowed/demo.txt".data).violations = []
    ∧ (decideRead scenarioPolicy "/tmp/test-allowed/secret.key".data).allowed = false
    ∧ (decideRead scenarioPolicy "/tmp/test-allowed/secret.key".data).violations
        = ["deny_pattern_matched"]
    ∧ (decideRead scenarioPolicy "/etc/passwd".data).allowed = false
    ∧ (decideRead scenarioPolicy "/etc/passwd".data).violations = ["path_not_allowed"] := by
  decide

/-- C2: whenever the canonical form of a path both starts with an
allow-prefix of the policy and matches a deny glob of the policy, the
decision is DENY — deny precedence holds. -/
theorem c2_deny_overrides_allow (pol : FsPolicy) (p : List Char)
    (E : CanonPath) (G : List GlobToken)
    (hE : E ∈ pol.allowedRead) (hG : G ∈ pol.deniedPatterns)
    (hstart : allowEntryMatches (resolve p) E = true)
    (hglob : globMatch G (resolve p) = true) :
    (decideRead pol p).allowed = false := by
  have hd : matchesDeny (resolve p) pol.deniedPatterns = true := by
    unfold matchesDeny
    exact List.any_eq_true.mpr ⟨G, hG, hglob⟩
  unfold decideRead
  simp [hd]

/-- Witness for C2 at the scenario policy and the path
`/tmp/test-allowed/secret.key`. -/
theorem c2_deny_overrides_allow_witness :
    (decideRead scenarioPolicy "/tmp/test-allowed/secret.key".data).allowed = false :=
  c2_deny_overrides_allow scenarioPolicy "/tmp/test-allowed/secret.key".data
    "/tmp/test-allowed".data keyGlob (by decide) (by decide) (by decide) (by decide)

/-- Characterization of `listStartsWith` as existence of a suffix. -/
theorem listStartsWith_iff (e p : List Char) :
    listStartsWith p e = true ↔ ∃ t, p = e ++ t := by
  induction e generalizing p with
  | nil =>
    simp [listStartsWith]
  | cons d ds ih =>
    cases p with
    | nil =>
      simp [listStartsWith]
    | cons c cs =>
      simp only [listStartsWith, Bool.and_eq_true, beq_iff_eq, ih, List.cons_append,
        List.cons.injEq]
      constructor
      · rintro ⟨rfl, t, rfl⟩
        exact ⟨t, rfl, rfl⟩
      · rintro ⟨t, rfl, rfl⟩
        exact ⟨rfl, t, rfl⟩

/-- C5: a path `P` is allowed by an allow-list entry `E` iff `P` equals `E`
or `P` begins with `E` immediately followed by the path separator; in
particular `/tmp/foo` is not allowed by the entry `/tmp/fo`. -/
theorem c5_allow_entry_characterization :
    (∀ p e : List Char,
      allowEntryMatches p e = true ↔ (p = e ∨ ∃ rest, p = e ++ '/' :: rest))
    ∧ allowEntryMatches "/tmp/foo".data "/tmp/fo".data = false := by
  constructor
  · intro p e
    simp only [allowEntryMatches, Bool.or_eq_true, beq_iff_eq, listStartsWith_iff]
    constructor
    · rintro (rfl | ⟨t, rfl⟩)
      · exact Or.inl rfl
      · exact Or.inr ⟨t, by simp⟩
    · rintro (rfl | ⟨t, rfl⟩)
      · exact Or.inl rfl
      · exact Or.inr ⟨t, by simp⟩
  · decide

/-- Witness for C5: instantiating the characterization at a concrete
allowed path below the entry `/tmp/test-allowed`. -/
theorem c5_allow_entry_characterization_witness :
    "/tmp/test-allowed/demo.txt".data = "/tmp/test-allowed".data
    ∨ ∃ rest, "/tmp/test-allowed/demo.txt".data = "/tmp/test-allowed".data ++ '/' :: rest :=
  (c5_allow_entry_characterization.1 "/tmp/test-allowed/demo.txt".data
    "/tmp/test-allowed".data).mp (by decide)

/-- Modelled from the spec: the kind of a privileged operation. -/
inductive OpKind where
  | readFile
  | writeFile
  | networkConnect
  | executeCommand
deriving DecidableEq, Repr

/-- Modelled from the spec: a capability record
`{id, operation_kind, scope, issued_at, expires_at, revoked}`; time is an
abstract natural-number clock and the scope is the exact target the token
covers (the spec leaves scope matching otherwise unspecified). -/
structure Capability where
  id : Nat
  opKind : OpKind
  scope : List Char
  issuedAt : Nat
  expiresAt : Nat
  revoked : Bool
deriving DecidableEq, Repr

/-- Modelled from the spec: the capability registry — the owned records plus
the next fresh id. -/
structure Registry where
  caps : List Capability
  nextId : Nat
deriving DecidableEq, Repr

/-- Modelled from the spec: `issue(operation_kind, scope, ttl)` at clock
`now` — a fresh unrevoked capability with `expires_at = now + ttl`. -/
def issue (reg : Registry) (kind : OpKind) (scope : List Char) (ttl now : Nat) :
    Registry × Capability :=
  let cap : Capability :=
    { id := reg.nextId, opKind := kind, scope := scope
      issuedAt := now, expiresAt := now + ttl, revoked := false }
  ({ caps := cap :: reg.caps, nextId := reg.nextId + 1 }, cap)

/-- Modelled from the spec: the outcome of `validate`. -/
inductive CapResult where
  | ok
  | expired
  | revoked
  | scopeMismatch
  | notFound
deriving DecidableEq, Repr

/-- Modelled from the spec: look a capability up by its opaque id. -/
def findCap (reg : Registry) (cid : Nat) : Option Capability :=
  reg.caps.find? fun c => c.id == cid

/-- Modelled from the spec: `validate(id, operation_kind, target)` at clock
`now`.  Per the data model a capability is expired once `now > expires_at`;
expiry and revocation make the token unusable regardless of scope, so they
are checked before scope matching. -/
def validate (reg : Registry) (cid : Nat) (kind : OpKind) (target : List Char)
    (now : Nat) : CapResult :=
  match findCap reg cid with
  | none => .notFound
  | some c =>
    if c.revoked then .revoked
    else if c.expiresAt < now then .expired
    else if c.opKind == kind && c.scope == target then .ok
    else .scopeMismatch

/-- Modelled from the spec: `revoke(id)` — mark the capability revoked,
leaving every other record (and an absent id) untouched. -/
def revoke (reg : Registry) (cid : Nat) : Registry :=
  { reg with
    caps := reg.caps.map fun c =>
      if c.id == cid then { c with revoked := true } else c }

/-- C4 counterexample: a capability issued with `ttl = 0` at clock 0 and
validated at the same instant is not yet past its expiry under the data
model's `now > expires_at` transition, so `validate` answers `Ok`, not
`Expired`. -/
theorem c4_ttl_zero_boundary_counterexample :
    validate (issue ⟨[], 0⟩ .readFile "/tmp/x".data 0 0).1 0 .readFile "/tmp/x".data 0
        = CapResult.ok
    ∧ validate (issue ⟨[], 0⟩ .readFile "/tmp/x".data 0 0).1 0 .readFile "/tmp/x".data 0
        ≠ CapResult.expired := by
  constructor
  · decide
  · decide

/-- C4 amended: a stored, unrevoked capability validated strictly after its
expiry time always fails with `Expired` (never `Ok`, never another error
kind); in particular a capability issued with `ttl = 0` fails with
`Expired` at every clock strictly after its issue instant. -/
theorem c4_expired_validation_amended :
    (∀ (reg : Registry) (cid : Nat) (kind : OpKind) (target : List Char)
        (now : Nat) (c : Capability),
      findCap reg cid = some c → c.revoked = false → c.expiresAt < now →
      validate reg cid kind target now = .expired)
    ∧ (∀ (reg : Registry) (kind : OpKind) (scope : List Char) (inow : Nat)
        (kind2 : OpKind) (target : List Char) (now2 : Nat),
      inow < now2 →
      validate (issue reg kind scope 0 inow).1 (issue reg kind scope 0 inow).2.id
          kind2 target now2 = .expired) := by
  constructor
  · intro reg cid kind target now c hfind hrev hexp
    unfold validate
    rw [hfind]
    simp [hrev, hexp]
  · intro reg kind scope inow kind2 target now2 hlt
    unfold validate findCap issue
    simp only [List.find?, beq_self_eq_true]
    simp [hlt]

/-- Witness for C4 amended: a `ttl = 0` capability issued at clock 0 is
`Expired` when validated at clock 1. -/
theorem c4_expired_validation_amended_witness :
    validate (issue ⟨[], 0⟩ .readFile "/tmp/x".data 0 0).1
        (issue ⟨[], 0⟩ .readFile "/tmp/x".data 0 0).2.id .readFile "/tmp/x".data 1
      = CapResult.expired :=
  c4_expired_validation_amended.2 ⟨[], 0⟩ .readFile "/tmp/x".data 0 .readFile
    "/tmp/x".data 1 (by decide)

/-- C8: revoking the same id twice leaves the registry in exactly the state
a single revocation produces, and therefore every subsequent `validate`
call answers the same. -/
theorem c8_revoke_idempotent :
    ∀ (reg : Registry) (cid : Nat),
      revoke (revoke reg cid) cid = revoke reg cid
      ∧ ∀ (cid2 : Nat) (kind : OpKind) (target : List Char) (now : Nat),
          validate (revoke (revoke reg cid) cid) cid2 kind target now
            = validate (revoke reg cid) cid2 kind target now := by
  intro reg cid
  have hreg : revoke (revoke reg cid) cid = revoke reg cid := by
    unfold revoke
    dsimp only
    rw [List.map_map]
    congr 1
    apply List.map_congr_left
    intro c _
    simp only [Function.comp_apply]
    by_cases h : c.id == cid
    · simp [h]
    · simp [h]
  exact ⟨hreg, fun cid2 kind target now => by rw [hreg]⟩

/-- Modelled from the spec: an injective encoding of serialized record
bytes into a single natural number, standing in for the byte string fed to
the hash. -/
def encodeList : List Nat → Nat
  | [] => 0
  | x :: xs => Nat.pair x (encodeList xs) + 1

/-- Injectivity of the byte-string encoding. -/
theorem encodeList_inj : ∀ {a b : List Nat}, encodeList a = encodeList b → a = b := by
  intro a
  induction a with
  | nil =>
    intro b h
    cases b with
    | nil => rfl
    | cons y ys => exact absurd h.symm (Nat.succ_ne_zero _)
  | cons x xs ih =>
    intro b h
    cases b with
    | nil => exact absurd h (Nat.succ_ne_zero _)
    | cons y ys =>
      have h2 := Nat.succ_injective h
      have h3 := Nat.pair_eq_pair.mp h2
      rw [h3.1, ih h3.2]

/-- Modelled from the spec: `this_hash = hash(prev_hash ‖ serialized(other
fields))`.  The spec's tamper-evidence invariant presumes a collision-free
hash, so the hash is modelled as an injective pairing. -/
def auditHash (prev seq : Nat) (content : List Nat) : Nat :=
  Nat.pair prev (Nat.pair seq (encodeList content))

/-- The modelled hash determines its three inputs. -/
theorem auditHash_inj {prev seq prev2 seq2 : Nat} {c c2 : List Nat}
    (h : auditHash prev seq c = auditHash prev2 seq2 c2) :
    prev = prev2 ∧ seq = seq2 ∧ c = c2 := by
  have h1 := Nat.pair_eq_pair.mp h
  have h2 := Nat.pair_eq_pair.mp h1.2
  exact ⟨h1.1, h2.1, encodeList_inj h2.2⟩

/-- Modelled from the spec: an audit record
`{sequence_no, content, prev_hash, this_hash}`, where `content` stands for
the serialized timestamp/session/operation/decision fields. -/
structure AuditRecord where
  seqNo : Nat
  content : List Nat
  prevHash : Nat
  thisHash : Nat
deriving DecidableEq, Inhabited, Repr

/-- Modelled from the spec: build one well-formed record for the chain. -/
def mkRecord (prev seq : Nat) (content : List Nat) : AuditRecord :=
  { seqNo := seq, content := content, prevHash := prev
    thisHash := auditHash prev seq content }

/-- Modelled from the spec: the chain produced by appending the given
contents in order, starting from running hash `prev` and sequence `seq`. -/
def buildFrom (prev seq : Nat) : List (List Nat) → List AuditRecord
  | [] => []
  | c :: cs =>
    mkRecord prev seq c :: buildFrom (auditHash prev seq c) (seq + 1) cs

/-- Modelled from the spec: the chain of `append` calls for the given
contents, seeded with genesis hash 0 and sequence 0. -/
def buildChain (cs : List (List Nat)) : List AuditRecord :=
  buildFrom 0 0 cs

/-- Modelled from the spec: recompute the chain from running hash `prev`
and sequence `seq`, answering `none` on success and `some i` for a failure
at sequence number `i` (the first mismatch). -/
def verifyFrom (prev seq : Nat) : List AuditRecord → Option Nat
  | [] => none
  | r :: rs =>
    if r.seqNo = seq ∧ r.prevHash = prev ∧ r.thisHash = auditHash prev seq r.content
    then verifyFrom r.thisHash (seq + 1) rs
    else some seq

/-- Modelled from the spec: `verify_chain()` — recompute every hash in
order from record 0. -/
def verifyChain (rs : List AuditRecord) : Option Nat :=
  verifyFrom 0 0 rs

/-- Replace the stored contents of a chain position-wise while keeping the
stored sequence numbers and hashes as they were appended. -/
def withContents : List AuditRecord → List (List Nat) → List AuditRecord
  | [], _ => []
  | rs, [] => rs
  | r :: rs, c :: cs => { r with content := c } :: withContents rs cs

/-- Alteration of a single stored field of a record (which is what any
single-byte alteration of its storage produces): the record changed, and
at most one of the four fields differs. -/
def altOne (r r' : AuditRecord) : Prop :=
  r' ≠ r ∧
    ((r'.content = r.content ∧ r'.prevHash = r.prevHash ∧ r'.thisHash = r.thisHash)
     ∨ (r'.seqNo = r.seqNo ∧ r'.prevHash = r.prevHash ∧ r'.thisHash = r.thisHash)
     ∨ (r'.seqNo = r.seqNo ∧ r'.content = r.content ∧ r'.thisHash = r.thisHash)
     ∨ (r'.seqNo = r.seqNo ∧ r'.content = r.content ∧ r'.prevHash = r.prevHash))

instance (r r' : AuditRecord) : Decidable (altOne r r') := by
  unfold altOne
  exact inferInstance

/-- A freshly built chain verifies. -/
theorem verifyFrom_buildFrom (cs : List (List Nat)) :
    ∀ prev seq, verifyFrom prev seq (buildFrom prev seq cs) = none := by
  induction cs with
  | nil => intro prev seq; rfl
  | cons c cs ih =>
    intro prev seq
    rw [buildFrom, verifyFrom, if_pos]
    · exact ih (auditHash prev seq c) (seq + 1)
    · exact ⟨rfl, rfl, rfl⟩

/-- Restoring the original contents restores the original chain. -/
theorem withContents_self (cs : List (List Nat)) :
    ∀ prev seq, withContents (buildFrom prev seq cs) cs = buildFrom prev seq cs := by
  induction cs with
  | nil => intro prev seq; rfl
  | cons c cs ih =>
    intro prev seq
    rw [buildFrom, withContents]
    rw [ih (auditHash prev seq c) (seq + 1)]
    simp [mkRecord]

/-- Verification of a chain whose stored contents were replaced (hashes and
sequence numbers kept as appended) succeeds exactly when the replacement
contents are the original ones. -/
theorem verify_withContents_iff (cs : List (List Nat)) :
    ∀ (cs' : List (List Nat)) prev seq, cs'.length = cs.length →
      (verifyFrom prev seq (withContents (buildFrom prev seq cs) cs') = none ↔ cs' = cs) := by
  induction cs with
  | nil =>
    intro cs' prev seq hlen
    have : cs' = [] := List.length_eq_zero.mp hlen
    subst this
    simp [buildFrom, withContents, verifyFrom]
  | cons c cs ih =>
    intro cs' prev seq hlen
    cases cs' with
    | nil => simp at hlen
    | cons c' cs'' =>
      have hlen2 : cs''.length = cs.length := by
        simpa using hlen
      rw [buildFrom, withContents]
      by_cases hc : c' = c
      · subst hc
        rw [verifyFrom, if_pos ⟨rfl, rfl, rfl⟩]
        show verifyFrom (auditHash prev seq c') (seq + 1)
            (withContents (buildFrom (auditHash prev seq c') (seq + 1) cs) cs'') = none
          ↔ _
        rw [ih cs'' (auditHash prev seq c') (seq + 1) hlen2]
        simp
      · rw [verifyFrom, if_neg]
        · constructor
          · intro h; exact absurd h (by simp)
          · intro h
            have := (List.cons.injEq c' cs'' c cs).mp h
            exact absurd this.1 hc
        · intro hcond
          have h3 := hcond.2.2
          have : auditHash prev seq c = auditHash prev seq c' := by
            simpa [mkRecord] using h3
          exact hc ((auditHash_inj this).2.2).symm

/-- Altering one stored field of the record at position `k` of a freshly
built chain makes verification fail exactly at sequence `seq + k`. -/
theorem verify_set_altOne (cs : List (List Nat)) :
    ∀ prev seq k (r' : AuditRecord), k < (buildFrom prev seq cs).length →
      altOne ((buildFrom prev seq cs).getD k default) r' →
      verifyFrom prev seq ((buildFrom prev seq cs).set k r') = some (seq + k) := by
  induction cs with
  | nil =>
    intro prev seq k r' hk _
    simp [buildFrom] at hk
  | cons c cs ih =>
    intro prev seq k r' hk halt
    cases k with
    | zero =>
      rw [buildFrom] at halt ⊢
      simp only [List.getD_cons_zero] at halt
      simp only [List.set_cons_zero]
      rw [verifyFrom, if_neg]
      · rw [Nat.add_zero]
      · intro hcond
        obtain ⟨hne, hcase⟩ := halt
        apply hne
        obtain ⟨s', cc', p', t'⟩ := r'
        obtain ⟨h1, h2, h3⟩ := hcond
        simp only at h1 h2 h3
        simp only [mkRecord, AuditRecord.mk.injEq] at hcase ⊢
        rcases hcase with ⟨e1, e2, e3⟩ | ⟨e1, e2, e3⟩ | ⟨e1, e2, e3⟩ | ⟨e1, e2, e3⟩
        · exact ⟨h1, e1, h2, e3⟩
        · have hcc : cc' = c := (auditHash_inj (h3.symm.trans e3)).2.2
          exact ⟨e1, hcc, e2, e3⟩
        · exact ⟨e1, e2, h2, e3⟩
        · have ht : t' = auditHash prev seq c := by rw [h3, e2]
          exact ⟨e1, e2, e3, ht⟩
    | succ k =>
      rw [buildFrom] at hk halt ⊢
      simp only [List.length_cons, Nat.succ_lt_succ_iff] at hk
      simp only [List.getD_cons_succ] at halt
      simp only [List.set_cons_succ]
      rw [verifyFrom, if_pos ⟨rfl, rfl, rfl⟩]
      simp only [mkRecord]
      have := ih (auditHash prev seq c) (seq + 1) k r' hk halt
      rw [this]
      congr 1
      omega

/-- C3: a freshly built audit chain verifies; verification of a chain whose
stored contents were altered after append (hashes kept as appended)
succeeds iff nothing was altered; and altering one stored field of the
record at index `k` makes `verify_chain` fail at sequence `k` — hence at a
sequence ≥ `k` and never at a smaller one. -/
theorem c3_verify_chain_tamper_evident :
    (∀ cs : List (List Nat), verifyChain (buildChain cs) = none)
    ∧ (∀ (cs cs' : List (List Nat)), cs'.length = cs.length →
        (verifyChain (withContents (buildChain cs) cs') = none ↔ cs' = cs))
    ∧ (∀ (cs : List (List Nat)) (k : Nat) (r' : AuditRecord),
        k < (buildChain cs).length →
        altOne ((buildChain cs).getD k default) r' →
        verifyChain ((buildChain cs).set k r') = some k) := by
  refine ⟨?_, ?_, ?_⟩
  · intro cs
    exact verifyFrom_buildFrom cs 0 0
  · intro cs cs' hlen
    exact verify_withContents_iff cs cs' 0 0 hlen
  · intro cs k r' hk halt
    have := verify_set_altOne cs 0 0 k r' hk halt
    simpa using this

/-- Witness for C3: on the chain of contents `[[1], [2]]`, altering the
first record's content field makes verification fail at sequence 0, and the
original contents verify. -/
theorem c3_verify_chain_tamper_evident_witness :
    verifyChain (buildChain [[1], [2]]) = none
    ∧ verifyChain ((buildChain [[1], [2]]).set 0
        { seqNo := 0, content := [9], prevHash := 0, thisHash := auditHash 0 0 [1] })
      = some 0 :=
  ⟨c3_verify_chain_tamper_evident.1 [[1], [2]],
   c3_verify_chain_tamper_evident.2.2 [[1], [2]] 0
     { seqNo := 0, content := [9], prevHash := 0, thisHash := auditHash 0 0 [1] }
     (by decide) (by decide)⟩

/-- Modelled from the spec: the running hash of the durable chain tail
(genesis 0 for the empty chain). -/
def chainTip : List AuditRecord → Nat
  | [] => 0
  | [r] => r.thisHash
  | _ :: rs => chainTip rs

/-- Modelled from the spec: `append` — compute the next hash from the
running chain, assign the next sequence number, and persist the record. -/
def chainAppend (log : List AuditRecord) (content : List Nat) : List AuditRecord :=
  log ++ [mkRecord (chainTip log) log.length content]

/-- Modelled from the spec: the serialized form of a decision recorded in
the audit log. -/
def serializeDecision (d : Decision) : List Nat :=
  [if d.allowed then 1 else 0]

/-- Modelled from the spec: the decision engine around one `ReadFile`
operation together with its audit append; `persistOk` abstracts whether the
append persisted durably.  If persistence fails the in-flight decision is
replaced by DENY and the log is unchanged. -/
def engineDecide (pol : FsPolicy) (raw : List Char) (persistOk : Bool)
    (log : List AuditRecord) : Decision × List AuditRecord :=
  let d := decideRead pol raw
  if persistOk then
    (d, chainAppend log (serializeDecision d))
  else
    ({ allowed := false
       reason := "Audit append failed"
       violations := ["audit_append_failed"] }, log)

/-- C7: when the audit append fails to persist, the engine's decision is
DENY with the audit violation code — even when the policy evaluation alone
would have produced ALLOW. -/
theorem c7_audit_failure_forces_deny :
    ∀ (pol : FsPolicy) (raw : List Char) (log : List AuditRecord),
      (engineDecide pol raw false log).1.allowed = false
      ∧ (engineDecide pol raw false log).1.violations = ["audit_append_failed"]
      ∧ ((decideRead pol raw).allowed = true →
          (engineDecide pol raw false log).1.allowed = false) :=
  fun _ _ _ => ⟨rfl, rfl, fun _ => rfl⟩

/-- Witness for C7: the scenario policy allows `/tmp/test-allowed/demo.txt`,
yet with a failed audit append the engine's decision is DENY. -/
theorem c7_audit_failure_forces_deny_witness :
    (engineDecide scenarioPolicy "/tmp/test-allowed/demo.txt".data false []).1.allowed
      = false :=
  (c7_audit_failure_forces_deny scenarioPolicy "/tmp/test-allowed/demo.txt".data []).2.2
    (by decide)

/-- Modelled from the spec: the outcome of `try_acquire` — a scoped guard
handle or `LimitExceeded`. -/
inductive AcquireResult where
  | guard
  | limitExceeded
deriving DecidableEq, BEq, Repr

/-- Modelled from the spec: `try_acquire(target, limit)` on the per-target
in-flight counter — increment if below the limit, else `LimitExceeded`. -/
def tryAcquire (counter limit : Nat) : AcquireResult × Nat :=
  if counter < limit then (.guard, counter + 1) else (.limitExceeded, counter)

/-- Modelled from the spec: service a batch of concurrent `try_acquire`
calls for one target in arrival order, with no intervening releases,
pairing each call with its outcome. -/
def runAcquires {α : Type} (limit counter : Nat) : List α → List (α × AcquireResult)
  | [] => []
  | a :: rest =>
    let r := tryAcquire counter limit
    (a, r.1) :: runAcquires limit r.2 rest

/-- Count of calls in a batch outcome that obtained a guard. -/
def guardCount {α : Type} (rs : List (α × AcquireResult)) : Nat :=
  rs.countP fun p => p.2 == AcquireResult.guard

/-- Count of calls in a batch outcome that failed with `LimitExceeded`. -/
def exceededCount {α : Type} (rs : List (α × AcquireResult)) : Nat :=
  rs.countP fun p => p.2 == AcquireResult.limitExceeded

/-- Computation rule for the derived equality test on acquire outcomes. -/
theorem acquireBeq_gg : (AcquireResult.guard == AcquireResult.guard) = true := rfl

/-- Computation rule for the derived equality test on acquire outcomes. -/
theorem acquireBeq_lg : (AcquireResult.limitExceeded == AcquireResult.guard) = false := rfl

/-- Computation rule for the derived equality test on acquire outcomes. -/
theorem acquireBeq_gl : (AcquireResult.guard == AcquireResult.limitExceeded) = false := rfl

/-- Computation rule for the derived equality test on acquire outcomes. -/
theorem acquireBeq_ll :
    (AcquireResult.limitExceeded == AcquireResult.limitExceeded) = true := rfl

/-- Starting from counter `c`, the guards granted are the remaining
headroom, capped by the number of calls. -/
theorem guardCount_runAcquires {α : Type} (calls : List α) :
    ∀ limit c, guardCount (runAcquires limit c calls) = min calls.length (limit - c) := by
  induction calls with
  | nil => intro limit c; simp [runAcquires, guardCount]
  | cons a rest ih =>
    intro limit c
    by_cases h : c < limit
    · have hrec := ih limit (c + 1)
      simp only [runAcquires, tryAcquire, if_pos h, guardCount, List.countP_cons] at hrec ⊢
      rw [hrec]
      simp [acquireBeq_gg, acquireBeq_lg]
      omega
    · have hrec := ih limit c
      simp only [runAcquires, tryAcquire, if_neg h, guardCount, List.countP_cons] at hrec ⊢
      rw [hrec]
      simp [acquireBeq_gg, acquireBeq_lg]
      omega

/-- Every call either obtains a guard or fails with `LimitExceeded`. -/
theorem guardCount_add_exceededCount {α : Type} (calls : List α) :
    ∀ limit c,
      guardCount (runAcquires limit c calls) + exceededCount (runAcquires limit c calls)
        = calls.length := by
  induction calls with
  | nil => intro limit c; simp [runAcquires, guardCount, exceededCount]
  | cons a rest ih =>
    intro limit c
    by_cases h : c < limit
    · have hrec := ih limit (c + 1)
      simp only [runAcquires, tryAcquire, if_pos h, guardCount, exceededCount,
        List.countP_cons] at hrec ⊢
      simp [acquireBeq_gg, acquireBeq_lg, acquireBeq_gl, acquireBeq_ll]
      omega
    · have hrec := ih limit c
      simp only [runAcquires, tryAcquire, if_neg h, guardCount, exceededCount,
        List.countP_cons] at hrec ⊢
      simp [acquireBeq_gg, acquireBeq_lg, acquireBeq_gl, acquireBeq_ll]
      omega

/-- C6: with a fresh counter and positive limit, a batch of concurrent
`try_acquire` calls grants guards to exactly `min n limit` of the `n` calls
(all of them when `n = limit`), fails the remaining `n - limit` with
`LimitExceeded`, and this outcome depends only on the number of calls,
not on their arrival order. -/
theorem c6_try_acquire_exact {α : Type} (calls : List α) (limit : Nat)
    (hpos : 0 < limit) :
    guardCount (runAcquires limit 0 calls) = min calls.length limit
    ∧ exceededCount (runAcquires limit 0 calls) = calls.length - limit
    ∧ ∀ (calls' : List α), calls'.Perm calls →
        guardCount (runAcquires limit 0 calls') = guardCount (runAcquires limit 0 calls)
        ∧ exceededCount (runAcquires limit 0 calls')
            = exceededCount (runAcquires limit 0 calls) := by
  have hg := guardCount_runAcquires calls limit 0
  have hs := guardCount_add_exceededCount calls limit 0
  simp only [Nat.sub_zero] at hg
  refine ⟨hg, by omega, ?_⟩
  intro calls' hperm
  have hlen : calls'.length = calls.length := hperm.length_eq
  have hg' := guardCount_runAcquires calls' limit 0
  have hs' := guardCount_add_exceededCount calls' limit 0
  simp only [Nat.sub_zero] at hg'
  constructor
  · rw [hg', hg, hlen]
  · omega

/-- Witness for C6: limit 2 over three queued calls — two guards, one
`LimitExceeded`, invariant under reordering the arrivals. -/
theorem c6_try_acquire_exact_witness :
    guardCount (runAcquires 2 0 [10, 20, 30]) = min 3 2
    ∧ exceededCount (runAcquires 2 0 [10, 20, 30]) = 3 - 2
    ∧ guardCount (runAcquires 2 0 [30, 20, 10]) = guardCount (runAcquires 2 0 [10, 20, 30]) := by
  have h := c6_try_acquire_exact [10, 20, 30] 2 (by decide)
  have hlen : ([30, 20, 10] : List Nat).length = ([10, 20, 30] : List Nat).length := rfl
  have hperm : ([30, 20, 10] : List Nat).Perm [10, 20, 30] := by decide
  exact ⟨by simpa using h.1, by simpa using h.2.1, (h.2.2 [30, 20, 10] hperm).1⟩

/-- Embedded from examples (proto `SecurityStatus`): the status carried by
a `ReadFile` response. -/
structure SecurityStatus where
  allowed : Bool
  reason : String
  violations : List String
deriving DecidableEq, Repr

/-- Embedded from examples (proto `ReadFileResponse`): status may be absent
(`!response.status` in the JavaScript clients) and data may be absent. -/
structure ReadFileResponse where
  status : Option SecurityStatus
  data : Option (List Nat)
deriving DecidableEq, Repr

/-- Outcome of a JavaScript promise executor: `resolve()` or
`reject(message)`. -/
inductive PromiseOutcome where
  | resolved
  | rejected (msg : String)
deriving DecidableEq, Repr

/-- Observable effects of one example-client `ReadFile` callback: how the
promise settles, whether file data was printed, whether the
`No status in response` warning was printed, and whether a
`SECURITY ISSUE` message was printed. -/
structure ClientEffect where
  outcome : PromiseOutcome
  printedData : Bool
  warnedNoStatus : Bool
  securityIssueLogged : Bool
deriving DecidableEq, Repr

/-- Embedded from `examples/index.js` (`readAllowedFile`, the
`client.ReadFile` callback): gRPC error rejects; a response without status
logs a warning and resolves; an allowed status prints the data and
resolves; a denial rejects with the reason. -/
def readAllowedFileCallback (err : Option String) (response : ReadFileResponse) :
    ClientEffect :=
  match err with
  | some m => { outcome := .rejected m, printedData := false
                warnedNoStatus := false, securityIssueLogged := false }
  | none =>
    match response.status with
    | none => { outcome := .resolved, printedData := false
                warnedNoStatus := true, securityIssueLogged := false }
    | some st =>
      if st.allowed then
        { outcome := .resolved, printedData := true
          warnedNoStatus := false, securityIssueLogged := false }
      else
        { outcome := .rejected st.reason, printedData := false
          warnedNoStatus := false, securityIssueLogged := false }

/-- Embedded from `examples/index.js` (`readForbiddenFile`, the
`client.ReadFile` callback): every branch resolves; a response without
status logs a warning; an allowed status logs a `SECURITY ISSUE`; no branch
prints file data. -/
def readForbiddenFileCallback (err : Option String) (response : ReadFileResponse) :
    ClientEffect :=
  match err with
  | some _ => { outcome := .resolved, printedData := false
                warnedNoStatus := false, securityIssueLogged := false }
  | none =>
    match response.status with
    | none => { outcome := .resolved, printedData := false
                warnedNoStatus := true, securityIssueLogged := false }
    | some st =>
      if st.allowed then
        { outcome := .resolved, printedData := false
          warnedNoStatus := false, securityIssueLogged := true }
      else
        { outcome := .resolved, printedData := false
          warnedNoStatus := false, securityIssueLogged := false }

/-- Embedded from `examples/standalone-api.js`: the interactive tool's
`stats` object. -/
structure Stats where
  allowed : Nat
  denied : Nat
  errors : Nat
deriving DecidableEq, Repr

/-- Embedded from `examples/standalone-api.js`: the value `testFilePath`
resolves with. -/
structure TestOutcome where
  success : Bool
  allowedRes : Option Bool
  errMsg : Option String
deriving DecidableEq, Repr

/-- Embedded from `examples/standalone-api.js` (`testFilePath`, the
`client.ReadFile` callback): a gRPC error or a missing status increments
`stats.errors`; an allowed status increments `stats.allowed`; a denial
increments `stats.denied`. -/
def testFilePath (stats : Stats) (err : Option String) (response : ReadFileResponse) :
    Stats × TestOutcome :=
  match err with
  | some m =>
    ({ stats with errors := stats.errors + 1 },
     { success := false, allowedRes := none, errMsg := some m })
  | none =>
    match response.status with
    | none =>
      ({ stats with errors := stats.errors + 1 },
       { success := false, allowedRes := none, errMsg := some "No status" })
    | some st =>
      if st.allowed then
        ({ stats with allowed := stats.allowed + 1 },
         { success := true, allowedRes := some true, errMsg := none })
      else
        ({ stats with denied := stats.denied + 1 },
         { success := true, allowedRes := some false, errMsg := none })

/-- Embedded from `examples/standalone-api.js` (`showStats`): the printed
total is the sum of the three counters. -/
def showStatsTotal (s : Stats) : Nat :=
  s.allowed + s.denied + s.errors

/-- Embedded from `examples/standalone-api.js`: a sequence of completed
`testFilePath` calls, threading the `stats` object. -/
def runTests (s : Stats) : List (Option String × ReadFileResponse) → Stats
  | [] => s
  | (e, r) :: rest => runTests (testFilePath s e r).1 rest

/-- C9: a `ReadFile` response without a status field is treated as an error
by every example client — `readAllowedFile` prints no file data, warns and
resolves; `readForbiddenFile` likewise warns and resolves without treating
it as an allowed read; and the interactive tool's `testFilePath` increments
`stats.errors`, leaving `stats.allowed` and `stats.denied` unchanged. -/
theorem c9_missing_status_is_error (response : ReadFileResponse) (s : Stats)
    (hstatus : response.status = none) :
    readAllowedFileCallback none response
        = { outcome := .resolved, printedData := false
            warnedNoStatus := true, securityIssueLogged := false }
    ∧ readForbiddenFileCallback none response
        = { outcome := .resolved, printedData := false
            warnedNoStatus := true, securityIssueLogged := false }
    ∧ (testFilePath s none response).1 = { s with errors := s.errors + 1 }
    ∧ (testFilePath s none response).2.success = false := by
  obtain ⟨st, d⟩ := response
  simp only at hstatus
  subst hstatus
  exact ⟨rfl, rfl, rfl, rfl⟩

/-- Witness for C9: a concrete statusless response against fresh stats. -/
theorem c9_missing_status_is_error_witness :
    (testFilePath { allowed := 0, denied := 0, errors := 0 } none
        { status := none, data := none }).1
      = { allowed := 0, denied := 0, errors := 1 } :=
  (c9_missing_status_is_error { status := none, data := none }
    { allowed := 0, denied := 0, errors := 0 } rfl).2.2.1

/-- Each completed `testFilePath` call grows the counter sum by one. -/
theorem showStatsTotal_testFilePath (s : Stats) (e : Option String)
    (r : ReadFileResponse) :
    showStatsTotal (testFilePath s e r).1 = showStatsTotal s + 1 := by
  unfold testFilePath showStatsTotal
  rcases e with _ | m
  · rcases hst : r.status with _ | st
    · simp [hst]
      omega
    · by_cases h : st.allowed <;> simp [hst, h] <;> omega
  · simp
    omega

/-- The counter sum after a run is the starting sum plus the number of
completed calls. -/
theorem showStatsTotal_runTests (inputs : List (Option String × ReadFileResponse)) :
    ∀ s : Stats, showStatsTotal (runTests s inputs) = showStatsTotal s + inputs.length := by
  induction inputs with
  | nil => intro s; simp [runTests]
  | cons p rest ih =>
    intro s
    obtain ⟨e, r⟩ := p
    rw [runTests, ih, showStatsTotal_testFilePath]
    simp only [List.length_cons]
    omega

/-- C10: every completed `testFilePath` call increments exactly one of
`stats.allowed`, `stats.denied`, `stats.errors`, so after any sequence of
completed calls starting from zeroed stats the counter sum — the total
printed by `showStats` — equals the number of tests run. -/
theorem c10_stats_partition :
    (∀ (s : Stats) (e : Option String) (r : ReadFileResponse),
      (testFilePath s e r).1 = { s with allowed := s.allowed + 1 }
      ∨ (testFilePath s e r).1 = { s with denied := s.denied + 1 }
      ∨ (testFilePath s e r).1 = { s with errors := s.errors + 1 })
    ∧ (∀ inputs : List (Option String × ReadFileResponse),
        showStatsTotal (runTests { allowed := 0, denied := 0, errors := 0 } inputs)
          = inputs.length) := by
  constructor
  · intro s e r
    rcases e with _ | m
    · rcases hst : r.status with _ | st
      · exact Or.inr (Or.inr (by simp [testFilePath, hst]))
      · by_cases h : st.allowed
        · exact Or.inl (by simp [testFilePath, hst, h])
        · exact Or.inr (Or.inl (by simp [testFilePath, hst, h]))
    · exact Or.inr (Or.inr (by simp [testFilePath]))
  · intro inputs
    rw [showStatsTotal_runTests]
    simp [showStatsTotal]

end OpenClawEnforce
